import Mathlib

/-!
Verification development for the Flashcard-Scheduler repository.

The model below is a shallow embedding of the Python sources:

* `scheduler/config.py`   — the configuration constants;
* `scheduler/domain/logic.py` — the pure scheduling rule `schedule_next`;
* `scheduler/data/models.py`  — the `CardSchedule` and `ReviewLog` tables;
* `scheduler/data/repos.py`   — the store operations;
* `scheduler/services/reviews.py` — the `record_review` service;
* `scheduler/api/views.py`    — the due-cards query.

Machine reals appear only in `schedule_next`, where Python computes
`int(last_interval_seconds * GROWTH[rating])` in IEEE-754 double precision;
that computation is modelled exactly over `ℕ` further down.  Database state
is modelled as explicit lists of rows, and operations that can raise Python
exceptions return `Except`.
-/

namespace FlashcardScheduler

/-! ## Configuration (scheduler/config.py) -/

def MAX_INTERVAL_SECONDS : ℕ := 365 * 24 * 3600

def RETRY_SECONDS : ℕ := 60

/-- The dict `FIRST_INTERVAL = {1: 24*3600, 2: 4*24*3600}`.  A lookup at a key
outside `{1, 2}` raises `KeyError` in Python; the callers validate
`rating ∈ {0, 1, 2}` and never look up key `0`, and every theorem below
restricts the rating accordingly, so the out-of-domain value is junk. -/
def FIRST_INTERVAL (rating : ℕ) : ℕ :=
  if rating = 1 then 24 * 3600 else if rating = 2 then 4 * 24 * 3600 else 0

/-! ## IEEE-754 double model for `int(L * GROWTH[rating])`

`GROWTH = {1: 1.6, 2: 2.5}` holds Python floats.  The double nearest to the
decimal literal `1.6` is exactly `7205759403792794 / 2 ^ 52`; `2.5` is exactly
`5 / 2`.  Python evaluates `L * g` by first converting the int `L` to a double
(round to nearest, ties to even) and then multiplying in double precision
(again round to nearest, ties to even); `int(·)` truncates toward zero.
Because both growth factors have a power-of-two denominator, both roundings
reduce to rounding an integer numerator to at most 53 significant bits, which
`roundNat53` performs exactly. -/

/-- Fuelled base-2 logarithm on `ℕ` (`natLog2 n = ⌊log₂ n⌋` for `n ≥ 1`,
and `0` at `0`); fuelled so that it reduces by structural recursion. -/
def log2Aux : ℕ → ℕ → ℕ
  | 0, _ => 0
  | fuel + 1, n => if n < 2 then 0 else log2Aux fuel (n / 2) + 1

def natLog2 (n : ℕ) : ℕ := log2Aux n n

/-- Round a natural number to at most 53 significant bits, to nearest with
ties to even: the significand rounding step of IEEE-754 double precision. -/
def roundNat53 (n : ℕ) : ℕ :=
  let m := natLog2 n
  if m < 53 then n
  else
    let s := m - 52
    let q := n / 2 ^ s
    let r := n % 2 ^ s
    let half := 2 ^ (s - 1)
    let q2 := if r < half then q else if half < r then q + 1
              else if q % 2 = 0 then q else q + 1
    q2 * 2 ^ s

/-- Numerator of the double stored in `GROWTH[rating]`. -/
def GROWTH_NUM (rating : ℕ) : ℕ :=
  if rating = 1 then 7205759403792794 else if rating = 2 then 5 else 0

/-- Log₂ of the (power-of-two) denominator of the double in `GROWTH[rating]`. -/
def GROWTH_DEN_LOG2 (rating : ℕ) : ℕ :=
  if rating = 1 then 52 else if rating = 2 then 1 else 0

/-- Exact model of the Python expression `int(L * GROWTH[rating])`:
convert `L` to a double (`roundNat53 L`), multiply by the double
`GROWTH_NUM rating / 2 ^ GROWTH_DEN_LOG2 rating` with one more correct
rounding, then truncate toward zero (the value is nonnegative, so this is
the floor, i.e. natural division). -/
def pyTruncMulGrowth (rating L : ℕ) : ℕ :=
  roundNat53 (roundNat53 L * GROWTH_NUM rating) / 2 ^ GROWTH_DEN_LOG2 rating

/-! ## The scheduling rule (scheduler/domain/logic.py) -/

/-- Shallow embedding of `schedule_next(rating, last_interval_seconds,
is_first)`.  `Rating.DONT_REMEMBER` is `0`. -/
def schedule_next (rating last_interval_seconds : ℕ) (is_first : Bool) : ℕ :=
  if rating = 0 then RETRY_SECONDS
  else if is_first then min (FIRST_INTERVAL rating) MAX_INTERVAL_SECONDS
  else
    let proposed := pyTruncMulGrowth rating last_interval_seconds
    max (min proposed MAX_INTERVAL_SECONDS) last_interval_seconds

/-- Reference definition written from the specification text (§4.1 and claim
C1): rating `0` returns `RETRY_SECONDS = 60`; a first review returns
`min(FIRST_INTERVAL[rating], MAX_INTERVAL_SECONDS)` with
`FIRST_INTERVAL = {1: 86400, 2: 345600}`; otherwise the proposal
`floor(last · GROWTH[rating])` — the same IEEE-754 double multiplication
truncated toward zero that the claim names — is clamped by
`max(min(proposed, MAX_INTERVAL_SECONDS), last)`. -/
def schedule_next_ref (rating last_interval_seconds : ℕ) (is_first : Bool) : ℕ :=
  if rating = 0 then 60
  else if is_first then min (if rating = 1 then 86400 else 345600) (365 * 24 * 3600)
  else max (min (pyTruncMulGrowth rating last_interval_seconds) (365 * 24 * 3600))
        last_interval_seconds

/-! ## Data model (scheduler/data/models.py)

User and card ids are opaque 128-bit UUIDs, modelled as `ℕ`.  Instants are
modelled as integer timestamps (`ℤ`); the service only ever adds a whole
number of seconds to the clock value.  `created_at` of `ReviewLog` is
server-assigned and read by no claim, so it is omitted from the row. -/

structure CardSchedule where
  user_id : ℕ
  card_id : ℕ
  streak : ℕ
  last_interval_seconds : ℕ
  next_review_at : ℤ
deriving DecidableEq

structure ReviewLog where
  user_id : ℕ
  card_id : ℕ
  rating : ℕ
  idempotency_key : String
  next_review_at : ℤ
  next_interval_seconds : ℕ
deriving DecidableEq

/-- The relational store: one list per table.  The unique constraints on
`(user_id, card_id)` for schedules and `(user_id, card_id, idempotency_key)`
for logs are modelled by the insert operations below, which signal
`integrityError` exactly when a row with the same key is already present. -/
structure Store where
  schedules : List CardSchedule
  logs : List ReviewLog
deriving DecidableEq

/-- Python exceptions that the modelled code can raise:
`integrityError` is Django's `IntegrityError` (unique-constraint violation);
`noneAttribute` is the `AttributeError` that `record_review` would raise by
reading a field of `None`. -/
inductive PyError where
  | integrityError
  | noneAttribute
deriving DecidableEq

/-- Row predicate of the queryset filter
`CardSchedule.objects.get(user_id=.., card_id=..)`. -/
def schedKeyMatch (u c : ℕ) (s : CardSchedule) : Bool :=
  s.user_id == u && s.card_id == c

/-- Row predicate of the queryset filter
`ReviewLog.objects.filter(user_id=.., card_id=.., idempotency_key=..)`. -/
def logKeyMatch (u c : ℕ) (k : String) (r : ReviewLog) : Bool :=
  r.user_id == u && r.card_id == c && r.idempotency_key == k

/-! ## Store operations (scheduler/data/repos.py) -/

/-- The `select_for_update().get(user_id=.., card_id=..)` lookup: the first
(by the unique constraint: only) row for the pair, or `none` for
`CardSchedule.DoesNotExist`. -/
def lookupSchedule (st : Store) (u c : ℕ) : Option CardSchedule :=
  st.schedules.find? (schedKeyMatch u c)

/-- `CardSchedule.objects.create(...)`: raises `IntegrityError` when a row
with the same `(user_id, card_id)` already exists (unique constraint),
otherwise appends the new row and returns it. -/
def createSchedule (st : Store) (now : ℤ) (u c : ℕ) :
    Except PyError (CardSchedule × Store) :=
  if st.schedules.any (schedKeyMatch u c) then .error .integrityError
  else
    let row : CardSchedule := ⟨u, c, 0, 0, now⟩
    .ok (row, { st with schedules := st.schedules ++ [row] })

/-- `get_or_create_schedule_for_update(user_id, card_id)` from repos.py.
The `other` argument injects the effect of a concurrent writer: a row that
another transaction commits between the failed locked `get` and the `create`
(`none` for a sequential run).  The source catches only
`CardSchedule.DoesNotExist`; an `IntegrityError` raised by the `create`
propagates, as the error branch below records.  The locked re-fetch by primary
key after a successful `create` returns the row just created. -/
def get_or_create_schedule_for_update (st : Store) (other : Option CardSchedule)
    (now : ℤ) (u c : ℕ) : Except PyError (CardSchedule × Store) :=
  match lookupSchedule st u c with
  | some sched => .ok (sched, st)
  | none =>
      let st1 := match other with
        | some row => { st with schedules := st.schedules ++ [row] }
        | none => st
      match createSchedule st1 now u c with
      | .error e => .error e
      | .ok (row, st2) => .ok (row, st2)

/-- `get_existing_idempotent(user_id, card_id, idem_key)` from repos.py:
`.filter(...).first()`. -/
def get_existing_idempotent (st : Store) (u c : ℕ) (k : String) :
    Option ReviewLog :=
  st.logs.find? (logKeyMatch u c k)

/-- `persist_review(...)` from repos.py.  `ReviewLog.objects.create` raises
`IntegrityError` exactly when a row with the same
`(user_id, card_id, idempotency_key)` exists; the handler then returns
`(get_existing_idempotent(...), True)`.  On success the new row is appended
and returned with `False`. -/
def persist_review (st : Store) (u c rating : ℕ) (k : String)
    (next_review_at : ℤ) (next_interval_seconds : ℕ) :
    (Option ReviewLog × Bool) × Store :=
  if st.logs.any (logKeyMatch u c k) then
    ((get_existing_idempotent st u c k, true), st)
  else
    let row : ReviewLog := ⟨u, c, rating, k, next_review_at, next_interval_seconds⟩
    ((some row, false), { st with logs := st.logs ++ [row] })

/-- `sched.save(update_fields=[...])` from reviews.py line 45: replace the
row with this primary key — here, with this `(user_id, card_id)` unique key —
by the mutated record. -/
def save_schedule (st : Store) (sched : CardSchedule) : Store :=
  { st with schedules := st.schedules.map fun s =>
      if schedKeyMatch sched.user_id sched.card_id s then sched else s }

/-! ## Review service (scheduler/services/reviews.py) -/

/-- Lines 34-45 of reviews.py: acquire the schedule row, compute the next
interval with `schedule_next`, and save the mutated schedule.  Returns the
computed `(next_dt, next_interval)` and the store after the save.  In the
source each of these statements autocommits: the `transaction.atomic` block
inside `get_or_create_schedule_for_update` ends when that function returns,
and no transaction encloses the service. -/
def schedule_phase (st : Store) (other : Option CardSchedule) (now : ℤ)
    (u c rating : ℕ) : Except PyError (ℤ × ℕ × Store) :=
  match get_or_create_schedule_for_update st other now u c with
  | .error e => .error e
  | .ok (sched, st1) =>
      let is_first := sched.last_interval_seconds == 0
      let next_interval := schedule_next rating sched.last_interval_seconds is_first
      let next_dt := now + (next_interval : ℤ)
      let sched2 := { sched with
        last_interval_seconds := next_interval
        next_review_at := next_dt
        streak := if rating = 0 then 0 else sched.streak + 1 }
      .ok (next_dt, next_interval, save_schedule st1 sched2)

/-- Lines 48-60 of reviews.py: append the log row via `persist_review` and
build the returned triple from the row that call hands back.  When
`persist_review` hands back `None` (its duplicate branch with no matching
row — unreachable under the unique constraint), reading
`log.next_review_at` raises `AttributeError`. -/
def append_phase (st : Store) (u c rating : ℕ) (k : String)
    (next_dt : ℤ) (next_interval : ℕ) :
    Except PyError ((ℤ × ℕ × Bool) × Store) :=
  match persist_review st u c rating k next_dt next_interval with
  | ((some log, was_idempotent), st3) =>
      .ok ((log.next_review_at, log.next_interval_seconds, was_idempotent), st3)
  | ((none, _), _) => .error .noneAttribute

/-- `record_review(user_id, card_id, rating, idempotency_key)` from
reviews.py: fast idempotent read, then the locked schedule phase, then the
log append.  `other` is threaded to the schedule phase (see
`get_or_create_schedule_for_update`); a sequential run passes `none`. -/
def record_review (st : Store) (other : Option CardSchedule) (now : ℤ)
    (u c rating : ℕ) (k : String) :
    Except PyError ((ℤ × ℕ × Bool) × Store) :=
  match get_existing_idempotent st u c k with
  | some existing =>
      .ok ((existing.next_review_at, existing.next_interval_seconds, true), st)
  | none =>
      match schedule_phase st other now u c rating with
      | .error e => .error e
      | .ok (next_dt, next_interval, st2) =>
          append_phase st2 u c rating k next_dt next_interval

/-- Durable state when the `ReviewLog` insert inside `persist_review` raises
a store failure.  Because the source wraps no transaction around the service
(the `transaction.atomic` block inside `get_or_create_schedule_for_update`
ends when it returns), every earlier ORM statement — the schedule create and
the schedule save — has already committed in its own autocommit transaction
when the insert fails, so the store produced by `schedule_phase` is what
remains; no log row is appended. -/
def state_after_append_failure (st : Store) (other : Option CardSchedule)
    (now : ℤ) (u c rating : ℕ) (k : String) : Except PyError Store :=
  match get_existing_idempotent st u c k with
  | some _ => .ok st
  | none =>
      match schedule_phase st other now u c rating with
      | .error e => .error e
      | .ok (_, _, st2) => .ok st2

/-- Sequential driver for claim C9: run `record_review` once per element of
`reviews` (a list of `(rating, idempotency_key, clock value)`) on a single
`(user, card)`, collecting the `interval_seconds` values returned.  A run that
raises stops and returns the outputs so far. -/
def runReviews (st : Store) (u c : ℕ) :
    List (ℕ × String × ℤ) → List ℕ × Store
  | [] => ([], st)
  | x :: rest =>
      match record_review st none x.2.2 u c x.1 x.2.1 with
      | .ok ((_, interval, _), st2) =>
          let tail := runReviews st2 u c rest
          (interval :: tail.1, tail.2)
      | .error _ => ([], st)

/-! ## Due-cards query (scheduler/api/views.py, DueCardsView) -/

/-- The queryset of `DueCardsView.get`:
`CardSchedule.objects.filter(user_id=user_id, next_review_at__lte=until)`
followed by `values_list("card_id", flat=True)`. -/
def list_due_card_ids (st : Store) (u : ℕ) (untilT : ℤ) : List ℕ :=
  (st.schedules.filter fun s =>
    s.user_id == u && decide (s.next_review_at ≤ untilT)).map
    fun s => s.card_id

/-- `DueCardsView.get` returns the card-id list in a `Response` with the
default status, `200`. -/
def dueCardsView (st : Store) (u : ℕ) (untilT : ℤ) : ℕ × List ℕ :=
  (200, list_due_card_ids st u untilT)

/-! ## Helper lemmas -/

theorem find?_eq_none_of_false {α : Type} {p : α → Bool} {l : List α}
    (h : ∀ x ∈ l, p x = false) : l.find? p = none :=
  List.find?_eq_none.mpr fun x hx => by simp [h x hx]

theorem false_of_find?_eq_none {α : Type} {p : α → Bool} {l : List α}
    (h : l.find? p = none) : ∀ x ∈ l, p x = false := fun x hx => by
  simpa using List.find?_eq_none.mp h x hx

theorem any_eq_false_of_false {α : Type} {p : α → Bool} {l : List α}
    (h : ∀ x ∈ l, p x = false) : l.any p = false := by
  simp only [List.any_eq_false]
  intro x hx
  simp [h x hx]

theorem any_eq_true_of_find? {α : Type} {p : α → Bool} {l : List α} {a : α}
    (h : l.find? p = some a) : l.any p = true :=
  List.any_eq_true.mpr ⟨a, List.mem_of_find?_eq_some h, List.find?_some h⟩

/-- After replacing every `p`-matching row of `l` by `new` (the shape of
`save_schedule`), `find? p` returns `new`, provided some row matched and
`new` itself matches. -/
theorem find?_map_replace {α : Type} {p : α → Bool} {new : α} (hp : p new = true) :
    ∀ {l : List α}, (∃ x ∈ l, p x = true) →
      (l.map fun s => if p s then new else s).find? p = some new := by
  intro l
  induction l with
  | nil => rintro ⟨x, hx, _⟩; cases hx
  | cons a t ih =>
      rintro ⟨x, hx, hpx⟩
      by_cases ha : p a = true
      · simp only [List.map_cons, if_pos ha]
        exact List.find?_cons_of_pos _ hp
      · simp only [List.map_cons, if_neg ha]
        rw [List.find?_cons_of_neg _ ha]
        rcases List.mem_cons.mp hx with rfl | hxt
        · exact absurd hpx ha
        · exact ih ⟨x, hxt, hpx⟩

theorem logKeyMatch_eq_false_of_ne_pair {u c : ℕ} {log : ReviewLog}
    (h : ¬(log.user_id = u ∧ log.card_id = c)) (k : String) :
    logKeyMatch u c k log = false := by
  rw [Bool.eq_false_iff]
  intro htrue
  simp only [logKeyMatch, Bool.and_eq_true, beq_iff_eq] at htrue
  exact h ⟨htrue.1.1, htrue.1.2⟩

theorem schedule_next_not_first_ge (rating L : ℕ) (h0 : rating ≠ 0) :
    L ≤ schedule_next rating L false := by
  unfold schedule_next
  rw [if_neg h0]
  simp

/-! ## Claim theorems -/

/-- C1: `schedule_next(rating, last_interval_seconds, is_first)` equals the
three-case reference definition of the specification — rating 0 returns
`RETRY_SECONDS = 60`; a first review returns
`min(FIRST_INTERVAL[rating], MAX_INTERVAL_SECONDS)`; otherwise the IEEE-754
double proposal `floor(last · GROWTH[rating])` is clamped into
`[last, MAX_INTERVAL_SECONDS]` — for every rating in `{0, 1, 2}`, every
`last_interval_seconds` and every `is_first`. -/
theorem c1_schedule_next_matches_reference
    (rating : ℕ) (h : rating = 0 ∨ rating = 1 ∨ rating = 2)
    (L : ℕ) (is_first : Bool) :
    schedule_next rating L is_first = schedule_next_ref rating L is_first := by
  rcases h with rfl | rfl | rfl <;> rfl

theorem c1_witness :
    ((1 : ℕ) = 0 ∨ (1 : ℕ) = 1 ∨ (1 : ℕ) = 2) ∧
      schedule_next 1 12345 false = schedule_next_ref 1 12345 false :=
  ⟨Or.inr (Or.inl rfl),
   c1_schedule_next_matches_reference 1 (Or.inr (Or.inl rfl)) 12345 false⟩

/-- C2 counterexample: the cap is not unconditional.  At
`last_interval_seconds = MAX_INTERVAL_SECONDS + 1 = 31536001` and rating 1,
`schedule_next` returns `max(min(proposed, MAX), 31536001) = 31536001`,
which exceeds `MAX_INTERVAL_SECONDS`, refuting the claim as stated. -/
theorem c2_counterexample :
    0 < 31536001 ∧ ¬ schedule_next 1 31536001 false ≤ MAX_INTERVAL_SECONDS := by
  exact ⟨by decide, by decide⟩

/-- C2 (amended): for every `last_interval_seconds L > 0` and rating in
`{1, 2}`, `schedule_next(r, L, false)` is at least `L`; and it is at most
`MAX_INTERVAL_SECONDS` provided `L ≤ MAX_INTERVAL_SECONDS` (the invariant
the store maintains), rather than unconditionally. -/
theorem c2_monotone_and_capped (L rating : ℕ) (_hL : 0 < L)
    (hr : rating = 1 ∨ rating = 2) :
    L ≤ schedule_next rating L false ∧
      (L ≤ MAX_INTERVAL_SECONDS → schedule_next rating L false ≤ MAX_INTERVAL_SECONDS) := by
  have h0 : rating ≠ 0 := by rcases hr with rfl | rfl <;> decide
  unfold schedule_next
  rw [if_neg h0]
  simp only [Bool.false_eq_true, if_false]
  exact ⟨Nat.le_max_right _ _,
    fun hcap => max_le (Nat.min_le_right _ _) hcap⟩

theorem c2_witness :
    86400 ≤ schedule_next 1 86400 false ∧
      schedule_next 1 86400 false ≤ MAX_INTERVAL_SECONDS :=
  ⟨(c2_monotone_and_capped 86400 1 (by decide) (Or.inl rfl)).1,
   (c2_monotone_and_capped 86400 1 (by decide) (Or.inl rfl)).2 (by decide)⟩

/-- C3: when a `ReviewLog` row for `(user_id, card_id, idempotency_key)`
exists, `record_review` returns that row's stored
`(next_review_at, next_interval_seconds)` with the idempotent flag `true` —
for any rating, including one different from the stored rating — and leaves
the whole store (schedule row included) unchanged. -/
theorem c3_idempotent_replay_is_pure_read
    (st : Store) (other : Option CardSchedule) (now : ℤ) (u c rating : ℕ)
    (k : String) (row : ReviewLog)
    (h : get_existing_idempotent st u c k = some row) :
    record_review st other now u c rating k =
      .ok ((row.next_review_at, row.next_interval_seconds, true), st) := by
  unfold record_review
  rw [h]

theorem c3_witness :
    get_existing_idempotent ⟨[⟨1, 2, 3, 400, 900⟩], [⟨1, 2, 2, "a", 900, 400⟩]⟩ 1 2 "a" =
        some ⟨1, 2, 2, "a", 900, 400⟩ ∧
      record_review ⟨[⟨1, 2, 3, 400, 900⟩], [⟨1, 2, 2, "a", 900, 400⟩]⟩ none 5000 1 2 1 "a" =
        .ok ((900, 400, true), ⟨[⟨1, 2, 3, 400, 900⟩], [⟨1, 2, 2, "a", 900, 400⟩]⟩) :=
  ⟨by decide,
   c3_idempotent_replay_is_pure_read _ none 5000 1 2 1 "a" ⟨1, 2, 2, "a", 900, 400⟩ (by decide)⟩

/-- C4: the claim asserts the schedule update and the log append commit
atomically, a pre-commit failure leaving neither row.  The code has no
enclosing transaction, so a store failure during the log append leaves the
already-committed schedule mutation behind: starting from the empty store,
`record_review(user 1, card 2, rating 1, key "a")` interrupted at the log
insert leaves a store whose schedule table holds the freshly written row
`(streak 1, last_interval 86400, next_review_at now+86400)` and whose log
table is empty — not the untouched initial store the claim requires. -/
theorem c4_append_failure_leaves_schedule_committed :
    state_after_append_failure ⟨[], []⟩ none 0 1 2 1 "a" =
        .ok ⟨[⟨1, 2, 1, 86400, 86400⟩], []⟩ ∧
      (⟨[⟨1, 2, 1, 86400, 86400⟩], []⟩ : Store) ≠ ⟨[], []⟩ := by
  exact ⟨rfl, by decide⟩

/-- C5 counterexample: when the `create` in
`get_or_create_schedule_for_update` collides with a row committed by a
concurrent writer (here injected between the failed locked `get` and the
`create`), the `IntegrityError` propagates — the function does not recover
by retrying the locked fetch as the claim states. -/
theorem c5_counterexample :
    get_or_create_schedule_for_update ⟨[], []⟩ (some ⟨1, 2, 0, 0, 0⟩) 0 1 2 =
      .error .integrityError := rfl

/-- C5 (amended): when no row exists for the pair,
`get_or_create_schedule_for_update` inserts a row with `streak = 0`,
`last_interval_seconds = 0`, `next_review_at = now()` and returns it
(re-fetched locked by primary key); but when the insert conflicts with a
concurrent insert of the same `(user_id, card_id)` key, the
unique-constraint `IntegrityError` propagates to the caller — only
`DoesNotExist` is caught, and no retry of the locked fetch happens. -/
theorem c5_create_if_missing_but_conflict_propagates
    (st : Store) (now : ℤ) (u c : ℕ) (row : CardSchedule)
    (habs : lookupSchedule st u c = none)
    (hu : row.user_id = u) (hc : row.card_id = c) :
    get_or_create_schedule_for_update st none now u c =
        .ok (⟨u, c, 0, 0, now⟩,
          { st with schedules := st.schedules ++ [⟨u, c, 0, 0, now⟩] }) ∧
      get_or_create_schedule_for_update st (some row) now u c =
        .error .integrityError := by
  have hanyfalse : st.schedules.any (schedKeyMatch u c) = false :=
    any_eq_false_of_false (false_of_find?_eq_none habs)
  constructor
  · unfold get_or_create_schedule_for_update createSchedule
    rw [habs]
    simp only [hanyfalse, Bool.false_eq_true, if_false]
  · unfold get_or_create_schedule_for_update createSchedule
    rw [habs]
    have hanytrue :
        (st.schedules ++ [row]).any (schedKeyMatch u c) = true := by
      rw [List.any_append]
      simp [schedKeyMatch, hu, hc]
    simp only [hanytrue, if_true]

theorem c5_witness :
    get_or_create_schedule_for_update ⟨[], []⟩ none 7 1 2 =
        .ok (⟨1, 2, 0, 0, 7⟩, ⟨[⟨1, 2, 0, 0, 7⟩], []⟩) ∧
      get_or_create_schedule_for_update ⟨[], []⟩ (some ⟨1, 2, 5, 5, 5⟩) 7 1 2 =
        .error .integrityError :=
  c5_create_if_missing_but_conflict_propagates ⟨[], []⟩ 7 1 2 ⟨1, 2, 5, 5, 5⟩
    (by decide) rfl rfl

/-- C8: the due-cards query returns exactly the card ids of `CardSchedule`
rows whose `user_id` matches and whose `next_review_at ≤ until` — every such
card and no other, with no filtering on streak or past reviews — and a user
with no schedule rows (a nonexistent user included) gets the empty list with
status 200. -/
theorem c8_due_cards_exact (st : Store) (u : ℕ) (untilT : ℤ) :
    (dueCardsView st u untilT).1 = 200 ∧
      (∀ cid, cid ∈ (dueCardsView st u untilT).2 ↔
        ∃ s ∈ st.schedules, s.user_id = u ∧ s.next_review_at ≤ untilT ∧ s.card_id = cid) ∧
      ((∀ s ∈ st.schedules, s.user_id ≠ u) → (dueCardsView st u untilT).2 = []) := by
  refine ⟨rfl, ?_, ?_⟩
  · intro cid
    simp only [dueCardsView, list_due_card_ids, List.mem_map, List.mem_filter,
      Bool.and_eq_true, beq_iff_eq, decide_eq_true_eq]
    constructor
    · rintro ⟨s, ⟨hs, hu, hle⟩, rfl⟩
      exact ⟨s, hs, hu, hle, rfl⟩
    · rintro ⟨s, hs, hu, hle, rfl⟩
      exact ⟨s, ⟨hs, hu, hle⟩, rfl⟩
  · intro h
    simp only [dueCardsView, list_due_card_ids]
    have : (st.schedules.filter fun s =>
        s.user_id == u && decide (s.next_review_at ≤ untilT)) = [] := by
      rw [List.filter_eq_nil_iff]
      intro s hs
      simp [h s hs]
    rw [this]
    rfl

theorem c8_witness :
    (dueCardsView ⟨[⟨1, 2, 0, 60, 10⟩], []⟩ 3 100).1 = 200 ∧
      (dueCardsView ⟨[⟨1, 2, 0, 60, 10⟩], []⟩ 3 100).2 = [] :=
  ⟨(c8_due_cards_exact ⟨[⟨1, 2, 0, 60, 10⟩], []⟩ 3 100).1,
   (c8_due_cards_exact ⟨[⟨1, 2, 0, 60, 10⟩], []⟩ 3 100).2.2 (by decide)⟩

/-- C10: for ratings 1 and 2 the branch is selected by the `is_first` flag
alone, so the combination `last_interval_seconds = 0`, `is_first = false` —
which the review service never produces — yields a zero interval, not the
first-review interval: `proposed = int(0 · growth) = 0` and
`max(min(0, MAX), 0) = 0`. -/
theorem c10_zero_last_not_first_returns_zero
    (rating : ℕ) (h : rating = 1 ∨ rating = 2) :
    schedule_next rating 0 false = 0 := by
  rcases h with rfl | rfl <;> decide

theorem c10_witness :
    ((1 : ℕ) = 1 ∨ (1 : ℕ) = 2) ∧ schedule_next 1 0 false = 0 :=
  ⟨Or.inl rfl, c10_zero_last_not_first_returns_zero 1 (Or.inl rfl)⟩

/-! ## Characterization of the locked schedule phase -/

theorem logKeyMatch_fresh_row_ne_key {u c rating : ℕ} {k k2 : String}
    {dt : ℤ} {iv : ℕ} (hne : k ≠ k2) :
    logKeyMatch u c k2 ⟨u, c, rating, k, dt, iv⟩ = false := by
  rw [Bool.eq_false_iff]
  intro htrue
  simp only [logKeyMatch, Bool.and_eq_true, beq_iff_eq] at htrue
  exact hne htrue.2

/-- A sequential `schedule_phase` run: reading `L` for the current
`last_interval_seconds` (`0` when the row is created), it returns
`next_interval = schedule_next rating L (L == 0)` and
`next_dt = now + next_interval`, leaves the log table alone, and afterwards
the schedule row for the pair carries exactly those two values. -/
theorem schedule_phase_spec (st : Store) (now : ℤ) (u c rating : ℕ) (L : ℕ)
    (hL : (lookupSchedule st u c).elim 0 CardSchedule.last_interval_seconds = L) :
    ∃ st2 s2,
      schedule_phase st none now u c rating =
        .ok (now + (schedule_next rating L (L == 0) : ℤ),
             schedule_next rating L (L == 0), st2) ∧
      st2.logs = st.logs ∧
      lookupSchedule st2 u c = some s2 ∧
      s2.last_interval_seconds = schedule_next rating L (L == 0) ∧
      s2.next_review_at = now + (schedule_next rating L (L == 0) : ℤ) := by
  cases hl : lookupSchedule st u c with
  | none =>
      rw [hl] at hL
      simp only [Option.elim] at hL
      subst hL
      have hany : st.schedules.any (schedKeyMatch u c) = false :=
        any_eq_false_of_false (false_of_find?_eq_none hl)
      refine ⟨save_schedule { st with schedules := st.schedules ++ [⟨u, c, 0, 0, now⟩] }
          ⟨u, c, if rating = 0 then 0 else 0 + 1, schedule_next rating 0 (0 == 0),
           now + (schedule_next rating 0 (0 == 0) : ℤ)⟩,
        ⟨u, c, if rating = 0 then 0 else 0 + 1, schedule_next rating 0 (0 == 0),
         now + (schedule_next rating 0 (0 == 0) : ℤ)⟩, ?_, rfl, ?_, rfl, rfl⟩
      · unfold schedule_phase get_or_create_schedule_for_update createSchedule
        rw [hl]
        simp only [hany, Bool.false_eq_true, if_false]
      · unfold lookupSchedule save_schedule
        exact find?_map_replace (by simp [schedKeyMatch])
          ⟨⟨u, c, 0, 0, now⟩, by simp, by simp [schedKeyMatch]⟩
  | some sched =>
      have hmatch : schedKeyMatch u c sched = true := List.find?_some hl
      have hmem : sched ∈ st.schedules := List.mem_of_find?_eq_some hl
      obtain ⟨su, sc, sst, slast, snext⟩ := sched
      simp only [schedKeyMatch, Bool.and_eq_true, beq_iff_eq] at hmatch
      obtain ⟨h1, h2⟩ := hmatch
      subst su
      subst sc
      rw [hl] at hL
      simp only [Option.elim] at hL
      subst hL
      refine ⟨save_schedule st
          ⟨u, c, if rating = 0 then 0 else sst + 1,
           schedule_next rating slast (slast == 0),
           now + (schedule_next rating slast (slast == 0) : ℤ)⟩,
        ⟨u, c, if rating = 0 then 0 else sst + 1,
         schedule_next rating slast (slast == 0),
         now + (schedule_next rating slast (slast == 0) : ℤ)⟩, ?_, rfl, ?_, rfl, rfl⟩
      · unfold schedule_phase get_or_create_schedule_for_update
        rw [hl]
      · unfold lookupSchedule save_schedule
        exact find?_map_replace (by simp [schedKeyMatch])
          ⟨⟨u, c, sst, slast, snext⟩, hmem, by simp [schedKeyMatch]⟩

/-- A sequential `record_review` call whose idempotency key matches no
existing `(user, card)` log row: it misses the fast path, runs the locked
phase, appends one log row and returns the freshly computed values with the
idempotent flag `false`. -/
theorem record_review_step (st : Store) (now : ℤ) (u c rating : ℕ) (k : String)
    (hnolog : ∀ log ∈ st.logs, logKeyMatch u c k log = false)
    (L : ℕ) (hL : (lookupSchedule st u c).elim 0 CardSchedule.last_interval_seconds = L) :
    ∃ st2,
      record_review st none now u c rating k =
        .ok ((now + (schedule_next rating L (L == 0) : ℤ),
              schedule_next rating L (L == 0), false), st2) ∧
      ((lookupSchedule st2 u c).elim 0 CardSchedule.last_interval_seconds =
        schedule_next rating L (L == 0)) ∧
      st2.logs = st.logs ++
        [⟨u, c, rating, k, now + (schedule_next rating L (L == 0) : ℤ),
          schedule_next rating L (L == 0)⟩] := by
  have hfast : get_existing_idempotent st u c k = none :=
    find?_eq_none_of_false hnolog
  obtain ⟨st2, s2, hph, hlogs, hlk, hlast, _⟩ :=
    schedule_phase_spec st now u c rating L hL
  have hany2 : st2.logs.any (logKeyMatch u c k) = false := by
    rw [hlogs]
    exact any_eq_false_of_false hnolog
  refine ⟨{ st2 with logs := st2.logs ++
      [⟨u, c, rating, k, now + (schedule_next rating L (L == 0) : ℤ),
        schedule_next rating L (L == 0)⟩] }, ?_, ?_, ?_⟩
  · unfold record_review
    rw [hfast, hph]
    unfold append_phase persist_review
    simp only [hany2, Bool.false_eq_true, if_false]
  · have hlk2 : lookupSchedule { st2 with logs := st2.logs ++
        [⟨u, c, rating, k, now + (schedule_next rating L (L == 0) : ℤ),
          schedule_next rating L (L == 0)⟩] } u c = some s2 := hlk
    rw [hlk2]
    simpa using hlast
  · simp only [hlogs]

/-- Inductive core of claim C9: starting from a state whose `(u, c)` schedule
row stores a positive interval `prev` and whose `(u, c)` log rows use none of
the upcoming keys, a run of reviews with ratings in `{1, 2}` and pairwise
distinct keys produces outputs that continue the non-decreasing chain from
`prev`. -/
theorem runReviews_chain (u c : ℕ) (reviews : List (ℕ × String × ℤ)) :
    ∀ (st : Store) (prev : ℕ),
    (∀ x ∈ reviews, x.1 = 1 ∨ x.1 = 2) →
    (reviews.map fun x => x.2.1).Nodup →
    (∀ x ∈ reviews, ∀ log ∈ st.logs, logKeyMatch u c x.2.1 log = false) →
    (lookupSchedule st u c).elim 0 CardSchedule.last_interval_seconds = prev →
    0 < prev →
    List.Chain' (· ≤ ·) (prev :: (runReviews st u c reviews).1) := by
  induction reviews with
  | nil =>
      intro st prev _ _ _ _ _
      simp [runReviews]
  | cons x rest ih =>
      intro st prev hr hnd hk hprev hpos
      obtain ⟨st2, hrec, hlast2, hlogs2⟩ :=
        record_review_step st x.2.2 u c x.1 x.2.1
          (hk x (List.mem_cons_self x rest)) prev hprev
      have hb : (prev == 0) = false := by
        rw [beq_eq_false_iff_ne]
        exact Nat.pos_iff_ne_zero.mp hpos
      rw [hb] at hrec hlast2
      have hge : prev ≤ schedule_next x.1 prev false :=
        schedule_next_not_first_ge x.1 prev
          (by rcases hr x (List.mem_cons_self x rest) with h | h <;> omega)
      have hrun : (runReviews st u c (x :: rest)).1 =
          schedule_next x.1 prev false :: (runReviews st2 u c rest).1 := by
        simp only [runReviews]
        rw [hrec]
      rw [hrun, List.chain'_cons]
      have hkeyx : x.2.1 ∉ rest.map fun z => z.2.1 :=
        (List.nodup_cons.mp (by simpa using hnd)).1
      refine ⟨hge, ih st2 (schedule_next x.1 prev false)
        (fun y hy => hr y (List.mem_cons_of_mem x hy))
        (List.nodup_cons.mp (by simpa using hnd)).2
        ?_ hlast2 (lt_of_lt_of_le hpos hge)⟩
      intro y hy log hlog
      rw [hlogs2] at hlog
      rcases List.mem_append.mp hlog with hold | hnew
      · exact hk y (List.mem_cons_of_mem x hy) log hold
      · obtain rfl := List.mem_singleton.mp hnew
        refine logKeyMatch_fresh_row_ne_key fun he => ?_
        exact hkeyx (he ▸ List.mem_map_of_mem _ hy)

/-- C9: for every sequence of sequential `record_review` calls on a single
`(user, card)` starting from an absent schedule row, with every rating in
`{1, 2}`, pairwise distinct idempotency keys and no pre-existing log row for
the pair, the returned `interval_seconds` values are non-decreasing. -/
theorem c9_sequential_intervals_nondecreasing
    (st : Store) (u c : ℕ) (reviews : List (ℕ × String × ℤ))
    (hr : ∀ x ∈ reviews, x.1 = 1 ∨ x.1 = 2)
    (hnd : (reviews.map fun x => x.2.1).Nodup)
    (hnolog : ∀ log ∈ st.logs, ¬(log.user_id = u ∧ log.card_id = c))
    (hnosched : lookupSchedule st u c = none) :
    List.Chain' (· ≤ ·) (runReviews st u c reviews).1 := by
  cases reviews with
  | nil => simp [runReviews]
  | cons x rest =>
      have hk0 : ∀ log ∈ st.logs, logKeyMatch u c x.2.1 log = false :=
        fun log hl => logKeyMatch_eq_false_of_ne_pair (hnolog log hl) x.2.1
      obtain ⟨st2, hrec, hlast2, hlogs2⟩ :=
        record_review_step st x.2.2 u c x.1 x.2.1 hk0 0 (by rw [hnosched]; rfl)
      have hpos1 : 0 < schedule_next x.1 0 (0 == 0) := by
        rcases hr x (List.mem_cons_self x rest) with h | h <;> (rw [h]; decide)
      have hrun : (runReviews st u c (x :: rest)).1 =
          schedule_next x.1 0 (0 == 0) :: (runReviews st2 u c rest).1 := by
        simp only [runReviews]
        rw [hrec]
      rw [hrun]
      have hkeyx : x.2.1 ∉ rest.map fun z => z.2.1 :=
        (List.nodup_cons.mp (by simpa using hnd)).1
      refine runReviews_chain u c rest st2 (schedule_next x.1 0 (0 == 0))
        (fun y hy => hr y (List.mem_cons_of_mem x hy))
        (List.nodup_cons.mp (by simpa using hnd)).2
        ?_ hlast2 hpos1
      intro y hy log hlog
      rw [hlogs2] at hlog
      rcases List.mem_append.mp hlog with hold | hnew
      · exact logKeyMatch_eq_false_of_ne_pair (hnolog log hold) y.2.1
      · obtain rfl := List.mem_singleton.mp hnew
        refine logKeyMatch_fresh_row_ne_key fun he => ?_
        exact hkeyx (he ▸ List.mem_map_of_mem _ hy)

theorem c9_witness :
    (∀ x ∈ [((1 : ℕ), ("a", (0 : ℤ))), (2, ("b", 100))], x.1 = 1 ∨ x.1 = 2) ∧
      List.Chain' (· ≤ ·)
        (runReviews ⟨[], []⟩ 1 2 [((1 : ℕ), ("a", (0 : ℤ))), (2, ("b", 100))]).1 :=
  ⟨by decide,
   c9_sequential_intervals_nondecreasing ⟨[], []⟩ 1 2
     [((1 : ℕ), ("a", (0 : ℤ))), (2, ("b", 100))]
     (by decide) (by decide) (by decide) (by decide)⟩

/-- C6: `persist_review` returns the new row with `was_duplicate = false` on
a successful insert; on a unique-constraint hit against
`(user_id, card_id, idempotency_key)` it fetches and returns the existing
row with `was_duplicate = true`; and the tail of `record_review` then
returns `(next_dt, next_interval, false)` in the first case and
`(existing.next_review_at, existing.next_interval_seconds, true)` in the
duplicate case. -/
theorem c6_persist_review_duplicate_contract
    (st : Store) (u c rating : ℕ) (k : String) (dt : ℤ) (iv : ℕ) :
    (get_existing_idempotent st u c k = none →
      persist_review st u c rating k dt iv =
        ((some ⟨u, c, rating, k, dt, iv⟩, false),
         { st with logs := st.logs ++ [⟨u, c, rating, k, dt, iv⟩] }) ∧
      append_phase st u c rating k dt iv =
        .ok ((dt, iv, false),
          { st with logs := st.logs ++ [⟨u, c, rating, k, dt, iv⟩] })) ∧
    (∀ row, get_existing_idempotent st u c k = some row →
      persist_review st u c rating k dt iv = ((some row, true), st) ∧
      append_phase st u c rating k dt iv =
        .ok ((row.next_review_at, row.next_interval_seconds, true), st)) := by
  constructor
  · intro h
    have hany : st.logs.any (logKeyMatch u c k) = false :=
      any_eq_false_of_false (false_of_find?_eq_none h)
    have hp : persist_review st u c rating k dt iv =
        ((some ⟨u, c, rating, k, dt, iv⟩, false),
         { st with logs := st.logs ++ [⟨u, c, rating, k, dt, iv⟩] }) := by
      unfold persist_review
      simp only [hany, Bool.false_eq_true, if_false]
    refine ⟨hp, ?_⟩
    unfold append_phase
    rw [hp]
  · intro row h
    have hany : st.logs.any (logKeyMatch u c k) = true := any_eq_true_of_find? h
    have hp : persist_review st u c rating k dt iv = ((some row, true), st) := by
      unfold persist_review
      simp only [hany, if_true]
      rw [h]
    refine ⟨hp, ?_⟩
    unfold append_phase
    rw [hp]

theorem c6_witness :
    append_phase ⟨[], [⟨1, 2, 2, "a", 9, 9⟩]⟩ 1 2 1 "b" 77 88 =
        .ok ((77, 88, false),
          ⟨[], [⟨1, 2, 2, "a", 9, 9⟩, ⟨1, 2, 1, "b", 77, 88⟩]⟩) ∧
      append_phase ⟨[], [⟨1, 2, 2, "a", 9, 9⟩]⟩ 1 2 1 "a" 77 88 =
        .ok ((9, 9, true), ⟨[], [⟨1, 2, 2, "a", 9, 9⟩]⟩) :=
  ⟨((c6_persist_review_duplicate_contract ⟨[], [⟨1, 2, 2, "a", 9, 9⟩]⟩
      1 2 1 "b" 77 88).1 (by decide)).2,
   ((c6_persist_review_duplicate_contract ⟨[], [⟨1, 2, 2, "a", 9, 9⟩]⟩
      1 2 1 "a" 77 88).2 ⟨1, 2, 2, "a", 9, 9⟩ (by decide)).2⟩

/-- C7 counterexample: two first-ever requests with the same key `"a"` for
`(user 1, card 2)`, rating 1 each.  Request A runs to completion from the
empty store (interval 86400).  Request B passed the fast path before A
committed, then runs its locked phase on A's committed state: it computes
interval 138240, overwrites the schedule row, and only then hits the
duplicate at log-append time, returning A's stored values.  The persisted
schedule row ends with `last_interval_seconds = 138240` and
`next_review_at = 138340`, not the winning log row's `86400`, refuting the
claimed consistency. -/
theorem c7_counterexample :
    record_review ⟨[], []⟩ none 0 1 2 1 "a" =
        .ok ((86400, 86400, false),
          ⟨[⟨1, 2, 1, 86400, 86400⟩], [⟨1, 2, 1, "a", 86400, 86400⟩]⟩) ∧
      schedule_phase ⟨[⟨1, 2, 1, 86400, 86400⟩], [⟨1, 2, 1, "a", 86400, 86400⟩]⟩
          none 100 1 2 1 =
        .ok (138340, 138240,
          ⟨[⟨1, 2, 2, 138240, 138340⟩], [⟨1, 2, 1, "a", 86400, 86400⟩]⟩) ∧
      append_phase ⟨[⟨1, 2, 2, 138240, 138340⟩], [⟨1, 2, 1, "a", 86400, 86400⟩]⟩
          1 2 1 "a" 138340 138240 =
        .ok ((86400, 86400, true),
          ⟨[⟨1, 2, 2, 138240, 138340⟩], [⟨1, 2, 1, "a", 86400, 86400⟩]⟩) ∧
      (138240 ≠ 86400 ∧ (138340 : ℤ) ≠ 86400) :=
  ⟨rfl, rfl, rfl, by decide, by decide⟩

/-- C7 (amended): when the log append of a losing request hits the
unique-constraint duplicate, `record_review` returns the winning log row's
stored values with the idempotent flag, but the persisted `CardSchedule`
row keeps the values this losing request computed and wrote before the
duplicate was detected — `last_interval_seconds = schedule_next(rB, L, L == 0)`
and `next_review_at = nowB + that` — and is not reconciled with the winning
log row. -/
theorem c7_duplicate_keeps_losing_schedule
    (st1 : Store) (nowB : ℤ) (u c rB : ℕ) (k : String) (winner : ReviewLog)
    (hwin : get_existing_idempotent st1 u c k = some winner)
    (L : ℕ)
    (hL : (lookupSchedule st1 u c).elim 0 CardSchedule.last_interval_seconds = L) :
    ∃ st2 s2,
      schedule_phase st1 none nowB u c rB =
        .ok (nowB + (schedule_next rB L (L == 0) : ℤ),
             schedule_next rB L (L == 0), st2) ∧
      append_phase st2 u c rB k (nowB + (schedule_next rB L (L == 0) : ℤ))
          (schedule_next rB L (L == 0)) =
        .ok ((winner.next_review_at, winner.next_interval_seconds, true), st2) ∧
      lookupSchedule st2 u c = some s2 ∧
      s2.last_interval_seconds = schedule_next rB L (L == 0) ∧
      s2.next_review_at = nowB + (schedule_next rB L (L == 0) : ℤ) := by
  obtain ⟨st2, s2, hph, hlogs, hlk, hlast, hnext⟩ :=
    schedule_phase_spec st1 nowB u c rB L hL
  refine ⟨st2, s2, hph, ?_, hlk, hlast, hnext⟩
  have hwin2 : get_existing_idempotent st2 u c k = some winner := by
    unfold get_existing_idempotent at hwin ⊢
    rw [hlogs]
    exact hwin
  have hany : st2.logs.any (logKeyMatch u c k) = true := any_eq_true_of_find? hwin2
  unfold append_phase persist_review
  simp only [hany, if_true]
  rw [hwin2]

theorem c7_witness :
    ∃ st2 s2,
      schedule_phase ⟨[⟨1, 2, 1, 86400, 86400⟩], [⟨1, 2, 1, "a", 86400, 86400⟩]⟩
          none 100 1 2 1 =
        .ok (100 + (schedule_next 1 86400 (86400 == 0) : ℤ),
             schedule_next 1 86400 (86400 == 0), st2) ∧
      append_phase st2 1 2 1 "a" (100 + (schedule_next 1 86400 (86400 == 0) : ℤ))
          (schedule_next 1 86400 (86400 == 0)) =
        .ok ((86400, 86400, true), st2) ∧
      lookupSchedule st2 1 2 = some s2 ∧
      s2.last_interval_seconds = schedule_next 1 86400 (86400 == 0) ∧
      s2.next_review_at = 100 + (schedule_next 1 86400 (86400 == 0) : ℤ) :=
  c7_duplicate_keeps_losing_schedule
    ⟨[⟨1, 2, 1, 86400, 86400⟩], [⟨1, 2, 1, "a", 86400, 86400⟩]⟩
    100 1 2 1 "a" ⟨1, 2, 1, "a", 86400, 86400⟩ (by decide) 86400 (by decide)

end FlashcardScheduler
